import Mathlib

/-!
Shallow embedding of the task-platform backend (subsystem T) and the
story-tracker helpers (subsystem S) of the repository, together with
proofs about the properties its specification states.

Each definition mirrors one Python function of the repository; database
tables are modelled as lists of row structures, the session is passed
explicitly, and `datetime` values are records of calendar fields.
-/

namespace Spec2Proof

/-! ## Access control (app/permissions/access_control.py) -/

inductive ProjectPermission
  | VIEW | EDIT | DELETE | MANAGE_MEMBERS
deriving DecidableEq, Repr, Fintype

inductive MemberRole
  | ADMIN | MEMBER | VIEWER
deriving DecidableEq, Repr, Fintype

inductive UserRole
  | ADMIN | USER | VIEWER
deriving DecidableEq, Repr, Fintype

inductive ProjectType
  | TEAM_MANAGED | COMPANY_MANAGED
deriving DecidableEq, Repr

/-- The base membership-role → permission table `ROLE_PERMISSIONS`. -/
def ROLE_PERMISSIONS : MemberRole → List ProjectPermission
  | .ADMIN => [.VIEW, .EDIT, .DELETE, .MANAGE_MEMBERS]
  | .MEMBER => [.VIEW, .EDIT]
  | .VIEWER => [.VIEW]

/-- An `HTTPException` raised by the access-control engine. -/
structure HTTPError where
  status_code : Nat
  detail : String
deriving DecidableEq, Repr

/-- `require_project_access`: the user lookup, the membership lookup and the
project-type lookup are abstracted into the three explicit arguments
(`none` meaning the row is absent); the chain of checks follows the
source line by line. -/
def require_project_access (user : Option UserRole) (member : Option MemberRole)
    (project_type : ProjectType) (permission : ProjectPermission) :
    Except HTTPError Bool :=
  match user with
  | none => .error ⟨401, "User not found"⟩
  | some role =>
    if role = .ADMIN then .ok true
    else if role = .VIEWER ∧ permission ≠ .VIEW then
      .error ⟨403, "Viewers can only view content"⟩
    else match member with
      | none => .error ⟨403, "Not a member of this project"⟩
      | some mrole =>
        if project_type = .COMPANY_MANAGED ∧ mrole = .VIEWER ∧ permission ≠ .VIEW then
          .error ⟨403, "Insufficient permissions in company-managed project"⟩
        else if project_type = .COMPANY_MANAGED ∧ mrole = .MEMBER ∧
            (permission = .DELETE ∨ permission = .MANAGE_MEMBERS) then
          .error ⟨403, "Only admins can perform this action in company-managed projects"⟩
        else if permission ∉ ROLE_PERMISSIONS mrole then
          .error ⟨403, "Insufficient permissions"⟩
        else .ok true

/-- The call was rejected with the given HTTP status code. -/
def rejectsWith (r : Except HTTPError Bool) (code : Nat) : Bool :=
  match r with
  | .error e => e.status_code == code
  | .ok _ => false

/-! ## Datetime helpers (app/utils/helpers.py) -/

/-- A Python `datetime.datetime` value (naive, microsecond precision). -/
structure PyDateTime where
  year : Nat
  month : Nat
  day : Nat
  hour : Nat
  minute : Nat
  second : Nat
  microsecond : Nat
deriving DecidableEq, Repr

def is_leap_year (y : Nat) : Bool :=
  (y % 4 == 0 && y % 100 != 0) || y % 400 == 0

def days_in_month (y m : Nat) : Nat :=
  if m = 2 then (if is_leap_year y then 29 else 28)
  else if m = 4 ∨ m = 6 ∨ m = 9 ∨ m = 11 then 30
  else 31

/-- Subtraction of `timedelta(seconds=1)` from a `datetime`, borrowing
through minutes, hours, days, months and years as Python's calendar
arithmetic does. The microsecond field is unaffected. -/
def sub_one_second (dt : PyDateTime) : PyDateTime :=
  if dt.second > 0 then { dt with second := dt.second - 1 }
  else if dt.minute > 0 then { dt with minute := dt.minute - 1, second := 59 }
  else if dt.hour > 0 then { dt with hour := dt.hour - 1, minute := 59, second := 59 }
  else if dt.day > 1 then
    { dt with day := dt.day - 1, hour := 23, minute := 59, second := 59 }
  else if dt.month > 1 then
    { dt with month := dt.month - 1, day := days_in_month dt.year (dt.month - 1),
              hour := 23, minute := 59, second := 59 }
  else
    { dt with year := dt.year - 1, month := 12, day := 31,
              hour := 23, minute := 59, second := 59 }

/-- `get_month_boundaries`: the start replaces day/hour/minute/second and
microsecond; the end is built with `dt.replace(...)` that resets only
year/month/day (the time-of-day fields of `dt` are kept, exactly as in the
source) and then subtracts one second. -/
def get_month_boundaries (dt : PyDateTime) : PyDateTime × PyDateTime :=
  let start := { dt with day := 1, hour := 0, minute := 0, second := 0, microsecond := 0 }
  let dtEnd :=
    if dt.month = 12 then
      sub_one_second { dt with year := dt.year + 1, month := 1, day := 1 }
    else
      sub_one_second { dt with month := dt.month + 1, day := 1 }
  (start, dtEnd)

/-! ## Decimal rendering of integers (model of Python `str` on `int`) -/

/-- Decimal digits of `n`, most significant first, by structural
recursion on a fuel bound (any fuel at least `n` yields the digits). -/
def natToDigitsAux : Nat → Nat → List Char
  | _, 0 => []
  | 0, _ + 1 => []
  | fuel + 1, n + 1 =>
    natToDigitsAux fuel ((n + 1) / 10) ++ [Nat.digitChar ((n + 1) % 10)]

/-- Decimal digits of a positive natural number, most significant first. -/
def natToDigits (n : Nat) : List Char :=
  natToDigitsAux n n

/-- Python `str` of a non-negative integer. -/
def natRepr (n : Nat) : String :=
  if n = 0 then "0" else String.mk (natToDigits n)

/-- Python `str` of an integer (possibly negative). -/
def py_int_repr (n : Int) : String :=
  if n < 0 then "-" ++ natRepr n.natAbs else natRepr n.natAbs

/-! ## Task keys (app/utils/helpers.py)

`generate_task_key` renders `f"{project_key}-{task_number}"`;
`parse_task_key` splits on the last hyphen (`rsplit("-", 1)`) and parses
the suffix with Python's `int`, whose grammar on a string is: optional
surrounding whitespace, an optional sign, then digits with single
underscores allowed between digits. -/

/-- Whitespace accepted (and stripped) by Python's `int` on strings. -/
def py_is_space (c : Char) : Bool :=
  c = ' ' ∨ c = '\t' ∨ c = '\n' ∨ c = '\r' ∨ c = '\x0b' ∨ c = '\x0c'

/-- Strips leading and trailing whitespace. -/
def strip_spaces (l : List Char) : List Char :=
  ((l.dropWhile py_is_space).reverse.dropWhile py_is_space).reverse

/-- The digit-and-underscore body of a Python integer literal after its
first character: digits, with every underscore followed by a digit.
Returns the digits with the underscores removed. -/
def du_digits : List Char → Option (List Char)
  | [] => some []
  | c :: rest =>
    if c = '_' then
      match rest with
      | [] => none
      | c2 :: rest2 =>
        if c2.isDigit then (du_digits rest2).map (fun ds => c2 :: ds) else none
    else if c.isDigit then (du_digits rest).map (fun ds => c :: ds) else none

/-- Value of a most-significant-first digit list. -/
def digitsToNat (l : List Char) : Nat :=
  l.foldl (fun acc c => acc * 10 + (c.toNat - '0'.toNat)) 0

/-- An unsigned Python integer literal: nonempty, not starting with an
underscore, digits with single underscores between digits. -/
def py_digits_value (l : List Char) : Option Nat :=
  match l with
  | [] => none
  | c :: _ => if c = '_' then none else (du_digits l).map digitsToNat

/-- Python `int` applied to a string (as a character list): strip
whitespace, take an optional sign, parse the digit body. -/
def py_int_of_string (s : List Char) : Option Int :=
  match strip_spaces s with
  | [] => none
  | c :: rest =>
    if c = '+' then (py_digits_value rest).map (fun v => (v : Int))
    else if c = '-' then (py_digits_value rest).map (fun v => -(v : Int))
    else (py_digits_value (c :: rest)).map (fun v => (v : Int))

/-- `task_key.rsplit("-", 1)`: `none` when no hyphen occurs (the Python
result then has a single part), otherwise the parts before and after the
last hyphen. -/
def rsplit_once (l : List Char) : Option (List Char × List Char) :=
  if '-' ∈ l then
    some ((l.reverse.drop ((l.reverse.takeWhile (fun c => c != '-')).length + 1)).reverse,
          (l.reverse.takeWhile (fun c => c != '-')).reverse)
  else none

/-- `generate_task_key(project_key, task_number)`. -/
def generate_task_key (project_key : String) (task_number : Int) : String :=
  project_key ++ "-" ++ py_int_repr task_number

/-- `parse_task_key`: raises `ValueError` (modelled as `Except.error`)
when the key has no hyphen or its numeric suffix does not parse. -/
def parse_task_key (task_key : String) : Except String (String × Int) :=
  match rsplit_once task_key.toList with
  | none => .error ("Invalid task key format: " ++ task_key)
  | some (pk, num_part) =>
    match py_int_of_string num_part with
    | none => .error ("Invalid task number in key: " ++ task_key)
    | some task_number => .ok (String.mk pk, task_number)

/-! ## Byte-size formatting (app/utils/helpers.py and app/file_handler.py) -/

/-- Two-digit zero padding of a number below 100. -/
def pad_two (k : Nat) : String :=
  if k < 10 then "0" ++ natRepr k else natRepr k

/-- Model of the Python format `f"{num/den:.2f}"` for `den` a power of two:
the quotient is exactly representable, so the printed value is `num/den`
rounded to two decimal places with ties going to an even last digit. -/
def fmt_two_dec (num den : Nat) : String :=
  let scaled := num * 100
  let q := scaled / den
  let r := scaled % den
  let rounded :=
    if den < 2 * r then q + 1
    else if 2 * r < den then q
    else if q % 2 = 0 then q else q + 1
  natRepr (rounded / 100) ++ "." ++ pad_two (rounded % 100)

/-- The loop of `bytes_to_human_readable`: `den` tracks the divisions by
1024 performed so far (the running value is `size_bytes / den`, and the
division by a power of two is exact in Python's float arithmetic). -/
def bytes_to_human_readable_loop (n den : Nat) : List String → String
  | [] => fmt_two_dec n den ++ " PB"
  | u :: units =>
    if n < 1024 * den then fmt_two_dec n den ++ " " ++ u
    else bytes_to_human_readable_loop n (den * 1024) units

/-- `bytes_to_human_readable` of the helper library. -/
def bytes_to_human_readable (size_bytes : Nat) : String :=
  bytes_to_human_readable_loop size_bytes 1 ["B", "KB", "MB", "GB", "TB"]

/-- `format_file_size` of the subsystem-S file handler. -/
def format_file_size (size_bytes : Nat) : String :=
  if size_bytes < 1024 then natRepr size_bytes ++ " B"
  else if size_bytes < 1024 * 1024 then fmt_two_dec size_bytes 1024 ++ " KB"
  else if size_bytes < 1024 * 1024 * 1024 then fmt_two_dec size_bytes (1024 * 1024) ++ " MB"
  else fmt_two_dec size_bytes (1024 * 1024 * 1024) ++ " GB"

/-! ## Pagination (app/utils/helpers.py) -/

inductive PyRuntimeError
  | ZeroDivisionError
deriving DecidableEq, Repr

structure PaginatedResponse (α : Type) where
  items : List α
  total : Int
  page : Int
  limit : Int
  pages : Int
  has_next : Bool
  has_prev : Bool
deriving DecidableEq, Repr

/-- Normalization of a Python slice index against a list of length `n`:
negative indices count from the end, and both directions clamp to the
list. -/
def py_index (n : Nat) (i : Int) : Nat :=
  (if i < 0 then max ((n : Int) + i) 0 else min i (n : Int)).toNat

/-- Python list slicing `l[start:stop]`. -/
def py_slice {α : Type} (l : List α) (start stop : Int) : List α :=
  (l.take (py_index l.length stop)).drop (py_index l.length start)

/-- `paginate`: the page count `(total + limit - 1) // limit` is Python
floor division, which raises `ZeroDivisionError` when `limit = 0`. -/
def paginate {α : Type} (items : List α) (page limit : Int) :
    Except PyRuntimeError (PaginatedResponse α) :=
  let total : Int := items.length
  if limit = 0 then .error .ZeroDivisionError
  else
    let pages := (total + limit - 1).fdiv limit
    let start := (page - 1) * limit
    let stop := start + limit
    .ok { items := py_slice items start stop, total := total, page := page,
          limit := limit, pages := pages,
          has_next := decide (page < pages), has_prev := decide (1 < page) }

/-! ## Task table operations (app/crud/task.py)

The `tasks` table is a list of rows; `id` is the primary key, so at most
one row carries a given id and the ORM object returned by
`get_task_by_id` is that row. The session is created with
`autoflush=False` (app/database.py), so a query issued after an in-memory
mutation but before `commit` still sees the stored rows. -/

inductive TaskStatus
  | TODO | IN_PROGRESS | DONE | ARCHIVED
deriving DecidableEq, Repr, Fintype

structure TaskRow where
  id : String
  project_id : String
  status : TaskStatus
  position : Int
deriving DecidableEq, Repr

/-- `query(func.max(...)).scalar() or 0`: SQL `MAX` of an empty set is
NULL (`none`), which `or 0` turns into 0; a stored 0 is also falsy and
maps to itself, so `Option.getD` is an exact model. -/
def sql_max_or_zero (l : List Int) : Int :=
  (l.max?).getD 0

/-- The positions of the rows of one project currently stored with the
given status — the column a task is moved into. -/
def column_positions (db : List TaskRow) (pid : String) (status : TaskStatus) : List Int :=
  (db.filter (fun t => t.project_id == pid && t.status == status)).map TaskRow.position

/-- `update_task_status`: the task is looked up by id; the maximal
position in the destination column is computed over the stored rows
(autoflush is off, so the pending status change is invisible to the
query) and the task is moved to that maximum plus one. -/
def update_task_status (db : List TaskRow) (task_id : String) (status : TaskStatus) :
    Option (List TaskRow) :=
  match db.find? (fun t => t.id == task_id) with
  | none => none
  | some task =>
    let max_position := sql_max_or_zero (column_positions db task.project_id status)
    some (db.map (fun t =>
      if t.id == task_id then { task with status := status, position := max_position + 1 }
      else t))

/-- `update_task_position`: a bulk UPDATE shifts every row of the same
project in the destination status at or above the target position (the
moved task itself excluded by `Task.id != task_id`) up by one, then the
moved task receives the destination status and the target position. -/
def update_task_position (db : List TaskRow) (task_id : String) (status : TaskStatus)
    (position : Int) : Option (List TaskRow) :=
  match db.find? (fun t => t.id == task_id) with
  | none => none
  | some task =>
    some (db.map (fun t =>
      if t.id == task_id then { task with status := status, position := position }
      else if t.project_id == task.project_id && t.status == status && position ≤ t.position
      then { t with position := t.position + 1 }
      else t))

/-- `get_board_tasks`: the non-ARCHIVED tasks of the project, ordered by
position, bucketed into the TODO, IN_PROGRESS and DONE columns. -/
def get_board_tasks (db : List TaskRow) (project_id : String) :
    List TaskRow × List TaskRow × List TaskRow :=
  let tasks := (db.filter
      (fun t => t.project_id == project_id && t.status != TaskStatus.ARCHIVED)).mergeSort
    (fun a b => a.position ≤ b.position)
  (tasks.filter (fun t => t.status == TaskStatus.TODO),
   tasks.filter (fun t => t.status == TaskStatus.IN_PROGRESS),
   tasks.filter (fun t => t.status == TaskStatus.DONE))

/-! ## Task numbering (app/crud/task.py, projected on one project)

For the numbering claims only the task number, the generated key and the
row identity matter, so a project's task rows are projected onto those
three fields. -/

structure NumberedTask where
  id : Nat
  task_number : Nat
  task_key : String
deriving DecidableEq, Repr

/-- `get_next_task_number`: `(max existing task_number or 0) + 1`; real
task numbers are at least 1, so the falsy-zero case of `or` coincides
with `Option.getD`. -/
def get_next_task_number (tasks : List NumberedTask) : Nat :=
  ((tasks.map NumberedTask.task_number).max?).getD 0 + 1

/-- `create_task` restricted to the key/number fields: the new task gets
the next number, the key `f"{project.project_key}-{task_number}"`, and is
inserted into the table. -/
def create_task (tasks : List NumberedTask) (project_key : String) (new_id : Nat) :
    List NumberedTask × NumberedTask :=
  let task_number := get_next_task_number tasks
  let task : NumberedTask := ⟨new_id, task_number, project_key ++ "-" ++ natRepr task_number⟩
  (tasks ++ [task], task)

/-- `delete_task`: the row with the given primary key is removed when
present (returning whether a row existed). -/
def delete_task (tasks : List NumberedTask) (task_id : Nat) : List NumberedTask × Bool :=
  if tasks.any (fun t => t.id == task_id) then
    (tasks.filter (fun t => t.id != task_id), true)
  else (tasks, false)

/-! ## Magic links (app/crud/user.py and app/services/auth_service.py)

The `magic_links` table is a list of rows; both `id` and `token` carry
UNIQUE constraints (app/models/user.py). Time is epoch seconds; the JWT
access token is abstracted to its subject claim. -/

structure MagicLinkRow where
  id : String
  user_id : String
  token : String
  is_used : Bool
  expires_at : Nat
deriving DecidableEq, Repr

/-- Configured bearer-token lifetime (`access_token_expire_minutes`,
default 30). -/
def ACCESS_TOKEN_EXPIRE_MINUTES : Nat := 30

structure TokenResponse where
  access_token_sub : String
  token_type : String
  expires_at : Nat
deriving DecidableEq, Repr

/-- `get_magic_link_by_token`: the lookup matches the token and excludes
used links (`is_used == False`) and expired links
(`expires_at > utcnow()`). -/
def get_magic_link_by_token (db : List MagicLinkRow) (now : Nat) (token : String) :
    Option MagicLinkRow :=
  db.find? (fun l => l.token == token && l.is_used == false && decide (now < l.expires_at))

/-- `mark_magic_link_used` sets `is_used` on the looked-up row (the row
with that primary key) and commits. -/
def mark_magic_link_used (db : List MagicLinkRow) (link_id : String) : List MagicLinkRow :=
  db.map (fun l => if l.id == link_id then { l with is_used := true } else l)

/-- `AuthService.verify_magic_link`: on a miss the caller sees `None`; on
a hit the link is marked used and a bearer token with a 30-minute expiry
is returned. (`create_session` writes to the separate `sessions` table,
which no magic-link lookup reads, so that table is not carried here.) -/
def verify_magic_link (db : List MagicLinkRow) (now : Nat) (token : String) :
    Option TokenResponse × List MagicLinkRow :=
  match get_magic_link_by_token db now token with
  | none => (none, db)
  | some magic_link =>
    (some ⟨magic_link.user_id, "bearer", now + ACCESS_TOKEN_EXPIRE_MINUTES * 60⟩,
     mark_magic_link_used db magic_link.id)

/-! ## Theorems: C1, C5 -/

/-- C1: in a COMPANY_MANAGED project, a globally-USER user holding a
MEMBER membership is granted EDIT, but is rejected with 403 for DELETE
and for MANAGE_MEMBERS; a VIEWER membership is rejected with 403 for
every permission other than VIEW. -/
theorem company_managed_member_viewer_rules :
    (require_project_access (some .USER) (some .MEMBER) .COMPANY_MANAGED .EDIT = .ok true)
    ∧ (∀ p : ProjectPermission, p = .DELETE ∨ p = .MANAGE_MEMBERS →
        rejectsWith (require_project_access (some .USER) (some .MEMBER)
          .COMPANY_MANAGED p) 403 = true)
    ∧ (∀ p : ProjectPermission, p ≠ .VIEW →
        rejectsWith (require_project_access (some .USER) (some .VIEWER)
          .COMPANY_MANAGED p) 403 = true) := by
  refine ⟨rfl, ?_, ?_⟩ <;> decide

/-- Witness for C1: the hypotheses of the two universally quantified parts
are discharged at DELETE and at EDIT respectively. -/
theorem company_managed_member_viewer_rules_witness :
    (rejectsWith (require_project_access (some .USER) (some .MEMBER)
      .COMPANY_MANAGED .DELETE) 403 = true)
    ∧ (rejectsWith (require_project_access (some .USER) (some .VIEWER)
      .COMPANY_MANAGED .EDIT) 403 = true) :=
  ⟨company_managed_member_viewer_rules.2.1 .DELETE (Or.inl rfl),
   company_managed_member_viewer_rules.2.2 .EDIT (by decide)⟩

/-- C5: `get_month_boundaries` keeps the time-of-day of its argument in
the computed end bound, so for 2024-01-15 12:00:00 it returns an end of
2024-02-01 11:59:59 — a moment in February — instead of the last second
of January's last day, 2024-01-31 23:59:59. -/
theorem month_boundaries_end_escapes_month :
    get_month_boundaries ⟨2024, 1, 15, 12, 0, 0, 0⟩ =
      (⟨2024, 1, 1, 0, 0, 0, 0⟩, ⟨2024, 2, 1, 11, 59, 59, 0⟩)
    ∧ (get_month_boundaries ⟨2024, 1, 15, 12, 0, 0, 0⟩).2.month ≠ 1
    ∧ (get_month_boundaries ⟨2024, 1, 15, 12, 0, 0, 0⟩).2 ≠ ⟨2024, 1, 31, 23, 59, 59, 0⟩ := by
  refine ⟨by decide, by decide, by decide⟩

/-! ## Theorems: C6, C8, C10 -/

/-- C6 counterexample: the two byte-size formatters disagree below 1024
bytes — the helper library prints the byte count with two decimal places
(`"0.00 B"`) while the file handler prints it as a plain integer
(`"0 B"`). -/
theorem size_formats_disagree_at_zero :
    bytes_to_human_readable 0 ≠ format_file_size 0 := by decide

/-- C6 amended: the two formatters agree on every byte count from 1024 up
to (but excluding) one tebibyte; below 1024 the helper prints two decimal
places where the file handler prints an integer, and from one tebibyte on
the helper moves to TB/PB units while the file handler stays at GB. -/
theorem size_formats_agree_mid_range (n : Nat) (h1 : 1024 ≤ n) (h2 : n < 1024 ^ 4) :
    bytes_to_human_readable n = format_file_size n := by
  unfold bytes_to_human_readable format_file_size
  simp only [bytes_to_human_readable_loop]
  norm_num
  split_ifs <;> first | rfl | omega | (rw [String.append_assoc]; rfl)

/-- Witness for C6 amended, at one mebibyte and a half. -/
theorem size_formats_agree_mid_range_witness :
    bytes_to_human_readable 1572864 = format_file_size 1572864 :=
  size_formats_agree_mid_range 1572864 (by norm_num) (by norm_num)

/-- C8: paginating any 25-item sequence with page size 10 yields, on page
1, the first ten items with `has_next` and not `has_prev`, and on page 3
the items at indices 20–24 with `has_prev` and not `has_next`; both pages
report `total = 25` and `pages = 3`. -/
theorem paginate_25_items_two_pages (α : Type) (l : List α) (h : l.length = 25) :
    paginate l 1 10 = .ok ⟨l.take 10, 25, 1, 10, 3, true, false⟩
    ∧ paginate l 3 10 = .ok ⟨l.drop 20, 25, 3, 10, 3, false, true⟩ := by
  have e0 : py_index 25 0 = 0 := by decide
  have e10 : py_index 25 10 = 10 := by decide
  have e20 : py_index 25 20 = 20 := by decide
  have e30 : py_index 25 30 = 25 := by decide
  have hs1 : py_slice l 0 10 = l.take 10 := by
    simp only [py_slice, h, e10, e0, List.drop_zero]
  have hs2 : py_slice l 20 30 = l.drop 20 := by
    simp only [py_slice, h, e30, e20]
    rw [← h, List.take_length]
  constructor <;>
    · simp only [paginate, h]
      norm_num [hs1, hs2]
      decide

/-- Witness for C8 at the sequence `0, 1, …, 24`. -/
theorem paginate_25_items_two_pages_witness :
    paginate (List.range 25) 1 10 =
      .ok ⟨(List.range 25).take 10, 25, 1, 10, 3, true, false⟩
    ∧ paginate (List.range 25) 3 10 =
      .ok ⟨(List.range 25).drop 20, 25, 3, 10, 3, false, true⟩ :=
  paginate_25_items_two_pages Nat (List.range 25) (by simp)

/-- C10: `paginate` raises `ZeroDivisionError` whenever `limit = 0` (in
particular on every non-empty item list), and for every positive `limit`
and every page number it returns normally. -/
theorem paginate_zero_limit_raises (α : Type) (l : List α) (page : Int) :
    (l ≠ [] → paginate l page 0 = .error .ZeroDivisionError)
    ∧ (∀ limit : Int, 0 < limit → (paginate l page limit).isOk = true) := by
  constructor
  · intro _
    simp [paginate]
  · intro limit hl
    simp [paginate, show limit ≠ 0 by omega, Except.isOk, Except.toBool]

/-- Witness for C10 on the list `[1, 2, 3]` at page 2. -/
theorem paginate_zero_limit_raises_witness :
    (paginate ([1, 2, 3] : List Nat) 2 0 = .error .ZeroDivisionError)
    ∧ (paginate ([1, 2, 3] : List Nat) 2 5).isOk = true :=
  ⟨(paginate_zero_limit_raises Nat [1, 2, 3] 2).1 (by decide),
   (paginate_zero_limit_raises Nat [1, 2, 3] 2).2 5 (by norm_num)⟩

/-! ## Supporting lemmas -/

theorem le_foldl_max {α : Type} [LinearOrder α] (t : List α) (a : α) :
    a ≤ t.foldl max a := by
  induction t generalizing a with
  | nil => exact le_refl a
  | cons b t ih => exact le_trans (le_max_left a b) (ih (max a b))

theorem le_foldl_max_of_mem {α : Type} [LinearOrder α] {t : List α} {x : α}
    (hx : x ∈ t) : ∀ a : α, x ≤ t.foldl max a := by
  induction t with
  | nil => cases hx
  | cons b t ih =>
    intro a
    rcases List.mem_cons.mp hx with rfl | hx'
    · exact le_trans (le_max_right a x) (le_foldl_max t (max a x))
    · exact ih hx' (max a b)

theorem le_max_getD_of_mem {α : Type} [LinearOrder α] {l : List α} {x : α}
    (hx : x ∈ l) (d : α) : x ≤ (l.max?).getD d := by
  cases l with
  | nil => cases hx
  | cons a t =>
    simp only [List.max?, Option.getD_some]
    rcases List.mem_cons.mp hx with rfl | hx'
    · exact le_foldl_max t x
    · exact le_foldl_max_of_mem hx' a

theorem digitChar_isDigit {d : Nat} (h : d < 10) : (Nat.digitChar d).isDigit = true := by
  interval_cases d <;> decide

theorem digitChar_val {d : Nat} (h : d < 10) :
    (Nat.digitChar d).toNat - '0'.toNat = d := by
  interval_cases d <;> decide

theorem natToDigitsAux_zero (fuel : Nat) : natToDigitsAux fuel 0 = [] := by
  cases fuel <;> rfl

theorem natToDigitsAux_fuel :
    ∀ {fuel fuel' n : Nat}, n ≤ fuel → n ≤ fuel' →
      natToDigitsAux fuel n = natToDigitsAux fuel' n := by
  intro fuel
  induction fuel with
  | zero =>
    intro fuel' n h _
    have hn : n = 0 := by omega
    subst hn
    rw [natToDigitsAux_zero, natToDigitsAux_zero]
  | succ f ih =>
    intro fuel' n h h'
    cases n with
    | zero => rw [natToDigitsAux_zero, natToDigitsAux_zero]
    | succ m =>
      cases fuel' with
      | zero => omega
      | succ f' =>
        simp only [natToDigitsAux]
        have hdiv : (m + 1) / 10 < m + 1 := Nat.div_lt_self (Nat.succ_pos m) (by omega)
        congr 1
        exact ih (by omega) (by omega)

theorem natToDigits_step {n : Nat} (h : 0 < n) :
    natToDigits n = natToDigits (n / 10) ++ [Nat.digitChar (n % 10)] := by
  obtain ⟨m, rfl⟩ : ∃ m, n = m + 1 := ⟨n - 1, by omega⟩
  have hdiv : (m + 1) / 10 < m + 1 := Nat.div_lt_self (Nat.succ_pos m) (by omega)
  show natToDigitsAux (m + 1) (m + 1) = _
  simp only [natToDigitsAux]
  rw [natToDigits]
  rw [natToDigitsAux_fuel (show (m + 1) / 10 ≤ m by omega) (le_refl ((m + 1) / 10))]

theorem natToDigits_digits : ∀ n, ∀ c ∈ natToDigits n, c.isDigit = true := by
  intro n
  induction n using Nat.strong_induction_on with
  | _ n ih =>
    intro c hc
    rcases Nat.eq_zero_or_pos n with rfl | hpos
    · exact absurd hc (by rw [natToDigits, natToDigitsAux_zero]; simp)
    · rw [natToDigits_step hpos] at hc
      rcases List.mem_append.mp hc with hmem | hmem
      · exact ih (n / 10) (Nat.div_lt_self hpos (by omega)) c hmem
      · obtain rfl := List.mem_singleton.mp hmem
        exact digitChar_isDigit (Nat.mod_lt n (by omega))

theorem digitsToNat_natToDigits : ∀ n, digitsToNat (natToDigits n) = n := by
  intro n
  induction n using Nat.strong_induction_on with
  | _ n ih =>
    rcases Nat.eq_zero_or_pos n with rfl | hpos
    · rfl
    · rw [natToDigits_step hpos]
      have hv := ih (n / 10) (Nat.div_lt_self hpos (by omega))
      simp only [digitsToNat, List.foldl_append, List.foldl_cons, List.foldl_nil] at hv ⊢
      rw [hv, digitChar_val (Nat.mod_lt n (by omega))]
      omega

theorem natToDigits_ne_nil {n : Nat} (h : 0 < n) : natToDigits n ≠ [] := by
  rw [natToDigits_step h]
  simp

theorem toList_mk (l : List Char) : (String.mk l).toList = l := rfl

theorem toList_append (s t : String) : (s ++ t).toList = s.toList ++ t.toList := by
  cases s
  cases t
  rfl

theorem mk_toList (s : String) : String.mk s.toList = s := by
  cases s
  rfl

theorem natRepr_toList_digits (n : Nat) : ∀ c ∈ (natRepr n).toList, c.isDigit = true := by
  unfold natRepr
  split_ifs with h
  · intro c hc
    obtain rfl := List.mem_singleton.mp hc
    decide
  · rw [toList_mk]
    exact natToDigits_digits n

theorem natRepr_toList_ne_nil (n : Nat) : (natRepr n).toList ≠ [] := by
  unfold natRepr
  split_ifs with h
  · simp
  · rw [toList_mk]
    exact natToDigits_ne_nil (by omega)

theorem digitsToNat_natRepr (n : Nat) : digitsToNat ((natRepr n).toList) = n := by
  unfold natRepr
  split_ifs with h
  · subst h
    rfl
  · rw [toList_mk]
    exact digitsToNat_natToDigits n

theorem isDigit_not_special {c : Char} (h : c.isDigit = true) :
    c ≠ '-' ∧ c ≠ '+' ∧ c ≠ '_' ∧ py_is_space c = false := by
  refine ⟨?_, ?_, ?_, ?_⟩
  · intro he
    subst he
    exact absurd h (by decide)
  · intro he
    subst he
    exact absurd h (by decide)
  · intro he
    subst he
    exact absurd h (by decide)
  · by_contra hs
    have hs' : py_is_space c = true := by
      cases hps : py_is_space c
      · exact absurd hps hs
      · rfl
    simp only [py_is_space, decide_eq_true_eq] at hs'
    rcases hs' with rfl | rfl | rfl | rfl | rfl | rfl <;> exact absurd h (by decide)

theorem dropWhile_cons_of_neg {p : Char → Bool} {c : Char} (l : List Char)
    (h : p c = false) : (c :: l).dropWhile p = c :: l := by
  simp [List.dropWhile_cons, h]

theorem strip_spaces_of_digits {l : List Char} (h : ∀ c ∈ l, c.isDigit = true) :
    strip_spaces l = l := by
  unfold strip_spaces
  cases l with
  | nil => rfl
  | cons c r =>
    rw [dropWhile_cons_of_neg _ (isDigit_not_special (h c (List.mem_cons_self c r))).2.2.2]
    cases hrev : (c :: r).reverse with
    | nil => exact absurd hrev (by simp)
    | cons d s =>
      have hd : d ∈ c :: r := by
        rw [← List.mem_reverse, hrev]
        exact List.mem_cons_self d s
      rw [dropWhile_cons_of_neg _ (isDigit_not_special (h d hd)).2.2.2]
      rw [← hrev, List.reverse_reverse]

theorem du_digits_of_digits {l : List Char} (h : ∀ c ∈ l, c.isDigit = true) :
    du_digits l = some l := by
  induction l with
  | nil => rfl
  | cons c r ih =>
    have hc := h c (List.mem_cons_self c r)
    rw [du_digits.eq_def]
    simp only []
    rw [if_neg (isDigit_not_special hc).2.2.1, if_pos hc,
      ih (fun x hx => h x (List.mem_cons_of_mem c hx))]
    rfl

theorem py_digits_value_of_digits {l : List Char} (hne : l ≠ [])
    (h : ∀ c ∈ l, c.isDigit = true) : py_digits_value l = some (digitsToNat l) := by
  cases l with
  | nil => exact absurd rfl hne
  | cons c r =>
    show (if c = '_' then none else (du_digits (c :: r)).map digitsToNat) = _
    rw [if_neg (isDigit_not_special (h c (List.mem_cons_self c r))).2.2.1,
      du_digits_of_digits h]
    rfl

theorem py_int_of_string_of_digits {l : List Char} (hne : l ≠ [])
    (h : ∀ c ∈ l, c.isDigit = true) :
    py_int_of_string l = some ((digitsToNat l : Int)) := by
  unfold py_int_of_string
  rw [strip_spaces_of_digits h]
  cases l with
  | nil => exact absurd rfl hne
  | cons c r =>
    have hc := h c (List.mem_cons_self c r)
    show (if c = '+' then _ else if c = '-' then _ else
      (py_digits_value (c :: r)).map (fun v => (v : Int))) = _
    rw [if_neg (isDigit_not_special hc).2.1, if_neg (isDigit_not_special hc).1,
      py_digits_value_of_digits (by simp) h]
    rfl

theorem takeWhile_append_stop {α : Type} (p : α → Bool) {l : List α} (x : α)
    (r : List α) (hl : ∀ c ∈ l, p c = true) (hx : p x = false) :
    (l ++ x :: r).takeWhile p = l := by
  induction l with
  | nil => simp [List.takeWhile_cons, hx]
  | cons a t ih =>
    rw [List.cons_append, List.takeWhile_cons, if_pos (hl a (List.mem_cons_self a t))]
    rw [ih (fun c hc => hl c (List.mem_cons_of_mem a hc))]

theorem drop_length_append {α : Type} (l r : List α) : (l ++ r).drop l.length = r := by
  simp [List.drop_left]

theorem rsplit_once_append {a b : List Char} (hb : '-' ∉ b) :
    rsplit_once (a ++ '-' :: b) = some (a, b) := by
  have hmem : '-' ∈ a ++ '-' :: b :=
    List.mem_append_right a (List.mem_cons_self '-' b)
  unfold rsplit_once
  rw [if_pos hmem]
  have hrev : (a ++ '-' :: b).reverse = b.reverse ++ '-' :: a.reverse := by
    simp
  rw [hrev]
  have htw : (b.reverse ++ '-' :: a.reverse).takeWhile (fun c => c != '-') = b.reverse := by
    refine takeWhile_append_stop _ _ _ ?_ (by decide)
    intro c hc
    have hcb : c ∈ b := List.mem_reverse.mp hc
    simp only [bne_iff_ne, ne_eq, decide_eq_true_eq]
    exact fun he => hb (he ▸ hcb)
  rw [htw, List.length_reverse]
  have hsplit : b.reverse ++ '-' :: a.reverse = (b.reverse ++ ['-']) ++ a.reverse := by
    simp
  have hlen : b.length + 1 = (b.reverse ++ ['-']).length := by
    simp
  rw [hsplit, hlen, drop_length_append, List.reverse_reverse, List.reverse_reverse]

theorem py_int_repr_natCast (n : Nat) : py_int_repr (n : Int) = natRepr n := by
  unfold py_int_repr
  rw [if_neg (by omega), Int.natAbs_ofNat]

theorem find?_eq_some_of_unique {α : Type} (p : α → Bool) {l : List α} {a : α}
    (ha : a ∈ l) (hpa : p a = true) (huniq : ∀ x ∈ l, p x = true → x = a) :
    l.find? p = some a := by
  induction l with
  | nil => cases ha
  | cons b t ih =>
    by_cases hb : p b = true
    · have hba : b = a := huniq b (List.mem_cons_self b t) hb
      subst hba
      simp [List.find?_cons_of_pos _ hb]
    · rw [List.find?_cons_of_neg _ hb]
      refine ih ?_ ?_
      · rcases List.mem_cons.mp ha with rfl | h
        · exact absurd hpa hb
        · exact h
      · intro x hx hpx
        exact huniq x (List.mem_cons_of_mem b hx) hpx

/-! ## Theorems: C2, C3, C4, C9 -/

/-- C2: a magic-link row that is unused and unexpired (token uniqueness
is the UNIQUE constraint of the `magic_links.token` column) verifies
successfully exactly once — the first call returns the bearer token with
its expiry and marks the link used, and a second call with the same
token, at any later (or equal) time, fails the lookup. -/
theorem magic_link_single_use (db : List MagicLinkRow) (now now2 : Nat) (token : String)
    (ml : MagicLinkRow)
    (huniq : (db.map MagicLinkRow.token).Nodup)
    (hmem : ml ∈ db) (htok : ml.token = token) (hunused : ml.is_used = false)
    (hfresh : now < ml.expires_at) :
    (verify_magic_link db now token).1 =
      some ⟨ml.user_id, "bearer", now + ACCESS_TOKEN_EXPIRE_MINUTES * 60⟩
    ∧ (verify_magic_link ((verify_magic_link db now token).2) now2 token).1 = none := by
  have hinj : ∀ x ∈ db, x.token = ml.token → x = ml := by
    intro x hx he
    exact List.inj_on_of_nodup_map huniq hx hmem he
  have hfind : get_magic_link_by_token db now token = some ml := by
    apply find?_eq_some_of_unique _ hmem
    · simp [htok, hunused, hfresh]
    · intro x hx hpx
      simp only [Bool.and_eq_true, beq_iff_eq, decide_eq_true_eq] at hpx
      exact hinj x hx (htok ▸ hpx.1.1)
  have hsecond :
      get_magic_link_by_token (mark_magic_link_used db ml.id) now2 token = none := by
    rw [get_magic_link_by_token, List.find?_eq_none]
    intro x hx
    obtain ⟨y, hy, rfl⟩ := List.mem_map.mp hx
    by_cases hid : (y.id == ml.id) = true
    · simp [mark_magic_link_used, hid]
    · have hxy : (if (y.id == ml.id) = true then { y with is_used := true } else y) = y := by
        simp [hid]
      rw [hxy]
      simp only [Bool.and_eq_true, beq_iff_eq, decide_eq_true_eq, not_and]
      intro hyt _
      have : y = ml := hinj y hy (htok ▸ hyt.1)
      subst this
      simp at hid
  constructor
  · simp [verify_magic_link, hfind]
  · simp only [verify_magic_link, hfind]
    simp [hsecond, verify_magic_link]

/-- Witness for C2 on a one-row table. -/
theorem magic_link_single_use_witness :
    (verify_magic_link [⟨"l1", "u1", "tok", false, 100⟩] 0 "tok").1 =
      some ⟨"u1", "bearer", 0 + ACCESS_TOKEN_EXPIRE_MINUTES * 60⟩
    ∧ (verify_magic_link
        ((verify_magic_link [⟨"l1", "u1", "tok", false, 100⟩] 0 "tok").2) 0 "tok").1 = none :=
  magic_link_single_use [⟨"l1", "u1", "tok", false, 100⟩] 0 0 "tok"
    ⟨"l1", "u1", "tok", false, 100⟩ (by simp) (by simp) rfl rfl (by norm_num)

/-- C3 counterexample: after creating tasks ENG-1 and ENG-2 and deleting
the task numbered 2, the next `create_task` derives its number from the
maximum among the remaining rows and produces the number 2 and the key
"ENG-2" a second time — the number of a deleted task is reused. -/
theorem task_number_reused_after_delete :
    ((create_task (create_task [] "ENG" 1).1 "ENG" 2).2).task_number = 2
    ∧ ((create_task (create_task [] "ENG" 1).1 "ENG" 2).2).task_key = "ENG-2"
    ∧ (delete_task (create_task (create_task [] "ENG" 1).1 "ENG" 2).1 2).2 = true
    ∧ ((create_task (delete_task (create_task (create_task [] "ENG" 1).1 "ENG" 2).1 2).1
        "ENG" 3).2).task_number = 2
    ∧ ((create_task (delete_task (create_task (create_task [] "ENG" 1).1 "ENG" 2).1 2).1
        "ENG" 3).2).task_key = "ENG-2" := by
  decide

/-- C3 amended: in a project with key "ENG" the first two created tasks
receive keys "ENG-1" and "ENG-2", and every produced number strictly
exceeds the number of every task currently existing in the project
(numbering is max existing number + 1, so numbers are only reused when
the task holding the maximum number is deleted). -/
theorem task_numbering_exceeds_existing :
    ((create_task [] "ENG" 1).2).task_key = "ENG-1"
    ∧ ((create_task (create_task [] "ENG" 1).1 "ENG" 2).2).task_key = "ENG-2"
    ∧ ∀ (tasks : List NumberedTask), ∀ t ∈ tasks,
        t.task_number < get_next_task_number tasks := by
  refine ⟨by decide, by decide, ?_⟩
  intro tasks t ht
  have h := le_max_getD_of_mem (List.mem_map_of_mem NumberedTask.task_number ht) 0
  unfold get_next_task_number
  omega

/-- Witness for C3 amended: the freshness bound applied to a singleton
table. -/
theorem task_numbering_exceeds_existing_witness :
    (⟨1, 3, "ENG-3"⟩ : NumberedTask).task_number <
      get_next_task_number [⟨1, 3, "ENG-3"⟩] :=
  task_numbering_exceeds_existing.2.2 [⟨1, 3, "ENG-3"⟩] ⟨1, 3, "ENG-3"⟩ (by simp)

/-- C4: moving a task from TODO to IN_PROGRESS places it at the end of
the IN_PROGRESS column — its new position is the maximum stored
IN_PROGRESS position of the project plus one, strictly above every task
already in that column — and the board view never contains an ARCHIVED
task in any of its three columns. -/
theorem status_change_repositions_and_board_excludes_archived :
    (∀ (db : List TaskRow) (task_id : String) (task : TaskRow),
      db.find? (fun t => t.id == task_id) = some task →
      task.status = TaskStatus.TODO →
      ∃ db', update_task_status db task_id TaskStatus.IN_PROGRESS = some db' ∧
        { task with
            status := TaskStatus.IN_PROGRESS,
            position := sql_max_or_zero
              (column_positions db task.project_id TaskStatus.IN_PROGRESS) + 1 } ∈ db' ∧
        ∀ t ∈ db, t.project_id = task.project_id → t.status = TaskStatus.IN_PROGRESS →
          t.position < sql_max_or_zero
            (column_positions db task.project_id TaskStatus.IN_PROGRESS) + 1)
    ∧ (∀ (db : List TaskRow) (project_id : String) (t : TaskRow),
        (t ∈ (get_board_tasks db project_id).1 ∨
         t ∈ (get_board_tasks db project_id).2.1 ∨
         t ∈ (get_board_tasks db project_id).2.2) →
        t.status ≠ TaskStatus.ARCHIVED) := by
  constructor
  · intro db task_id task hfind _
    have hpis : (task.id == task_id) = true := by simpa using List.find?_some hfind
    have hmemdb : task ∈ db := List.mem_of_find?_eq_some hfind
    refine ⟨_, by rw [update_task_status, hfind], ?_, ?_⟩
    · have := List.mem_map_of_mem (fun t =>
        if t.id == task_id then
          { task with
              status := TaskStatus.IN_PROGRESS,
              position := sql_max_or_zero
                (column_positions db task.project_id TaskStatus.IN_PROGRESS) + 1 }
        else t) hmemdb
      simpa [hpis] using this
    · intro t htmem hproj hstat
      have hcol : t.position ∈ column_positions db task.project_id TaskStatus.IN_PROGRESS := by
        refine List.mem_map_of_mem TaskRow.position ?_
        rw [List.mem_filter]
        exact ⟨htmem, by simp [hproj, hstat]⟩
      have := le_max_getD_of_mem hcol 0
      unfold sql_max_or_zero
      omega
  · intro db project_id t h
    rcases h with h | h | h <;>
    · rw [get_board_tasks] at h
      simp only [List.mem_filter, beq_iff_eq] at h
      intro hc
      rw [hc] at h
      exact absurd h.2 (by decide)

/-- Witness for C4 on a two-row table: moving task "a" from TODO lands
above the stored IN_PROGRESS position 3, and the board conclusion is
discharged for the IN_PROGRESS row. -/
theorem status_change_repositions_witness :
    (∃ db', update_task_status
        ([⟨"a", "p", .TODO, 5⟩, ⟨"b", "p", .IN_PROGRESS, 3⟩] : List TaskRow) "a"
        TaskStatus.IN_PROGRESS = some db' ∧
      { TaskRow.mk "a" "p" .TODO 5 with
          status := TaskStatus.IN_PROGRESS,
          position := sql_max_or_zero
            (column_positions
              ([⟨"a", "p", .TODO, 5⟩, ⟨"b", "p", .IN_PROGRESS, 3⟩] : List TaskRow) "p"
              TaskStatus.IN_PROGRESS) + 1 } ∈ db' ∧
      ∀ t ∈ ([⟨"a", "p", .TODO, 5⟩, ⟨"b", "p", .IN_PROGRESS, 3⟩] : List TaskRow),
        t.project_id = "p" → t.status = TaskStatus.IN_PROGRESS →
        t.position < sql_max_or_zero
          (column_positions
            ([⟨"a", "p", .TODO, 5⟩, ⟨"b", "p", .IN_PROGRESS, 3⟩] : List TaskRow) "p"
            TaskStatus.IN_PROGRESS) + 1)
    ∧ (⟨"b", "p", .IN_PROGRESS, 3⟩ : TaskRow).status ≠ TaskStatus.ARCHIVED :=
  ⟨status_change_repositions_and_board_excludes_archived.1
      [⟨"a", "p", .TODO, 5⟩, ⟨"b", "p", .IN_PROGRESS, 3⟩] "a" ⟨"a", "p", .TODO, 5⟩ rfl rfl,
   status_change_repositions_and_board_excludes_archived.2
      [⟨"b", "p", .IN_PROGRESS, 3⟩] "p" ⟨"b", "p", .IN_PROGRESS, 3⟩
      (Or.inr (Or.inl (by simp [get_board_tasks, List.mem_mergeSort, List.mem_filter])))⟩

/-- C9: `update_task_position` changes exactly the moved task (which
receives the destination status and the target position) and the rows of
the same project stored in the destination status at or above the target
position (each position incremented by exactly one, status untouched);
every other row — other project, other status, or below the target
position — is returned unchanged. -/
theorem position_update_frame (db : List TaskRow) (task_id : String) (st : TaskStatus)
    (pos : Int) (task : TaskRow)
    (hfind : db.find? (fun t => t.id == task_id) = some task) :
    ∃ db', update_task_position db task_id st pos = some db' ∧
      db'.length = db.length ∧
      ∀ (i : Nat) (t : TaskRow), db[i]? = some t →
        (t.id = task_id → db'[i]? = some { task with status := st, position := pos })
        ∧ (t.id ≠ task_id → t.project_id = task.project_id → t.status = st →
            pos ≤ t.position → db'[i]? = some { t with position := t.position + 1 })
        ∧ (t.id ≠ task_id →
            ¬(t.project_id = task.project_id ∧ t.status = st ∧ pos ≤ t.position) →
            db'[i]? = some t) := by
  refine ⟨_, by rw [update_task_position, hfind], by simp, ?_⟩
  intro i t hit
  have hmap : ∀ (f : TaskRow → TaskRow), (db.map f)[i]? = some (f t) := by
    intro f
    rw [List.getElem?_map, hit]
    rfl
  refine ⟨?_, ?_, ?_⟩
  · intro hid
    rw [hmap]
    rw [if_pos (by simp [hid])]
  · intro hid hproj hstat hpos
    rw [hmap]
    rw [if_neg (by simp [hid]), if_pos (by simp [hproj, hstat, hpos])]
  · intro hid hnot
    rw [hmap]
    rw [if_neg (by simp [hid]), if_neg (by simpa using hnot)]

/-- Witness for C9: a three-row table with one row in each frame class. -/
theorem position_update_frame_witness :
    ∃ db', update_task_position
        [⟨"a", "p", .TODO, 7⟩, ⟨"b", "p", .IN_PROGRESS, 4⟩, ⟨"c", "q", .IN_PROGRESS, 4⟩]
        "a" TaskStatus.IN_PROGRESS 2 = some db' ∧
      db'.length = 3 ∧
      ∀ (i : Nat) (t : TaskRow),
        [⟨"a", "p", .TODO, 7⟩, ⟨"b", "p", .IN_PROGRESS, 4⟩,
          (⟨"c", "q", .IN_PROGRESS, 4⟩ : TaskRow)][i]? = some t →
        (t.id = "a" → db'[i]? =
          some { (⟨"a", "p", .TODO, 7⟩ : TaskRow) with
                   status := TaskStatus.IN_PROGRESS, position := 2 })
        ∧ (t.id ≠ "a" → t.project_id = "p" → t.status = TaskStatus.IN_PROGRESS →
            2 ≤ t.position → db'[i]? = some { t with position := t.position + 1 })
        ∧ (t.id ≠ "a" →
            ¬(t.project_id = "p" ∧ t.status = TaskStatus.IN_PROGRESS ∧ 2 ≤ t.position) →
            db'[i]? = some t) :=
  position_update_frame
    [⟨"a", "p", .TODO, 7⟩, ⟨"b", "p", .IN_PROGRESS, 4⟩, ⟨"c", "q", .IN_PROGRESS, 4⟩]
    "a" TaskStatus.IN_PROGRESS 2 ⟨"a", "p", .TODO, 7⟩ rfl

/-! ## Theorem: C7 -/

/-- C7: `parse_task_key` inverts `generate_task_key` — for every project
key and every task number (task numbers are the positive integers the
platform assigns) parsing the generated key returns exactly the original
pair — and `parse_task_key` fails precisely when its input contains no
hyphen or the suffix after the last hyphen does not parse as a Python
integer. -/
theorem parse_generate_task_key_inverse :
    (∀ (project_key : String) (n : Nat),
      parse_task_key (generate_task_key project_key (n : Int)) =
        .ok (project_key, (n : Int)))
    ∧ (∀ s : String, (∃ e, parse_task_key s = .error e) ↔
        ('-' ∉ s.toList ∨
          py_int_of_string ((s.toList.reverse.takeWhile (fun c => c != '-')).reverse)
            = none)) := by
  constructor
  · intro pk n
    have hdig := natRepr_toList_digits n
    have hnodash : '-' ∉ (natRepr n).toList := fun hmem =>
      (isDigit_not_special (hdig '-' hmem)).1 rfl
    have hdash : ("-" : String).toList = ['-'] := rfl
    have htl : (generate_task_key pk (n : Int)).toList =
        pk.toList ++ '-' :: (natRepr n).toList := by
      unfold generate_task_key
      rw [py_int_repr_natCast, toList_append, toList_append, hdash]
      simp
    unfold parse_task_key
    rw [htl, rsplit_once_append hnodash]
    simp only []
    rw [py_int_of_string_of_digits (natRepr_toList_ne_nil n) hdig, digitsToNat_natRepr]
    simp only []
    rw [mk_toList]
  · intro s
    unfold parse_task_key rsplit_once
    by_cases hd : '-' ∈ s.toList
    · rw [if_pos hd]
      cases hp : py_int_of_string
          ((s.toList.reverse.takeWhile (fun c => c != '-')).reverse) with
      | none =>
        simp only [String.toList] at hp
        simp [hp, hd]
      | some v =>
        simp only [String.toList] at hp
        simp [hp, hd]
        exact hd
    · rw [if_neg hd]
      simp [hd]
      exact Or.inl hd

end Spec2Proof
